import Mathlib

/-!
Verification of the TransNet notebook (src/ipynb/transNet.ipynb): a shallow
embedding of the model's tensor computations over lists of real numbers,
together with theorems checking the documented properties of the losses,
the embedding normalization and the evaluation metrics.

Tensors are modelled as `List ℝ` (vectors) and `List (List ℝ)` (row-major
matrices).  TensorFlow operations are modelled by their documented
semantics, in particular:
* `tf.nn.l2_loss t` computes `sum(t ** 2) / 2` (half the sum of squares);
* `tf.nn.l2_normalize x 1` divides each row by
  `sqrt (max (sum of squares) eps)` with `eps = 1e-12`;
* `tf.nn.dropout x keep_prob` keeps an entry (scaled by `1 / keep_prob`)
  or zeroes it, according to a random mask, modelled as an explicit
  boolean mask argument;
* `tf.nn.top_k` returns the indices of the `k` largest entries of each
  row, ordered by decreasing value, ties resolved toward lower indices;
* `tf.one_hot i depth` is an indicator vector (all zeros if `i ≥ depth`).
-/

noncomputable section

namespace TransNet

/-! ### Hyperparameters (notebook cell "Parameters") -/

/-- Margin `gamma = 1` of the hinge loss. -/
def gamma : ℝ := 1

/-- Weight `alpha = 0.5` of the reconstruction loss inside the joint loss. -/
def alpha : ℝ := 1 / 2

/-- Regularizer weight `l2_lambda = 0.001`. -/
def l2_lambda : ℝ := 1 / 1000

/-- Dropout keep probability `keep_prob = 0.5`. -/
def keep_prob : ℝ := 1 / 2

/-- The list `hits_k = [1, 5, 10]` of cutoffs used by the evaluator. -/
def hits_k : List ℕ := [1, 5, 10]

/-- Evaluation batch size `eval_batch_size = 2000`. -/
def eval_batch_size : ℕ := 2000

/-! ### Generic tensor operations -/

/-- Dot product of two vectors (zipped elementwise product, then summed). -/
def dotL (a b : List ℝ) : ℝ := (List.zipWith (fun x y => x * y) a b).sum

/-- `tf.matmul`: row `i`, column `j` of the product is the dot product of
row `i` of `A` with column `j` of `B`. -/
def matmul (A B : List (List ℝ)) : List (List ℝ) :=
  A.map (fun row =>
    (List.range (B.headD []).length).map (fun j =>
      dotL row (B.map (fun brow => brow.getD j 0))))

/-- Broadcast addition of a bias vector to every row of a matrix. -/
def addBias (A : List (List ℝ)) (b : List ℝ) : List (List ℝ) :=
  A.map (fun row => List.zipWith (fun x y => x + y) row b)

/-- Elementwise matrix addition. -/
def addM (A B : List (List ℝ)) : List (List ℝ) :=
  List.zipWith (fun r s => List.zipWith (fun x y => x + y) r s) A B

/-- Elementwise matrix subtraction. -/
def subM (A B : List (List ℝ)) : List (List ℝ) :=
  List.zipWith (fun r s => List.zipWith (fun x y => x - y) r s) A B

/-- Elementwise (Hadamard) matrix product, `tf.multiply`. -/
def hadamard (A B : List (List ℝ)) : List (List ℝ) :=
  List.zipWith (fun r s => List.zipWith (fun x y => x * y) r s) A B

/-- Apply a scalar function to every entry of a matrix. -/
def mapMat (f : ℝ → ℝ) (A : List (List ℝ)) : List (List ℝ) :=
  A.map (List.map f)

/-- `tf.abs` on a matrix. -/
def absM (A : List (List ℝ)) : List (List ℝ) := mapMat (fun x => |x|) A

/-- `tf.nn.tanh` on a matrix. -/
def tanhM (A : List (List ℝ)) : List (List ℝ) := mapMat Real.tanh A

/-- The logistic sigmoid `1 / (1 + exp (-x))`. -/
def sigmoid (x : ℝ) : ℝ := 1 / (1 + Real.exp (-x))

/-- `tf.nn.sigmoid` on a matrix. -/
def sigmoidM (A : List (List ℝ)) : List (List ℝ) := mapMat sigmoid A

/-- `tf.reduce_sum` over all entries of a matrix. -/
def reduceSumM (A : List (List ℝ)) : ℝ := (A.map List.sum).sum

/-- `tf.reduce_sum(·, 1)`: the list of row sums of a matrix. -/
def rowSums (A : List (List ℝ)) : List ℝ := A.map List.sum

/-- Sum of the squares of the entries of a vector (`‖v‖₂²`). -/
def normSqV (v : List ℝ) : ℝ := (v.map (fun x => x * x)).sum

/-- Sum of the squares of the entries of a matrix (squared Frobenius norm). -/
def normSqM (A : List (List ℝ)) : ℝ := (A.map normSqV).sum

/-- `tf.nn.l2_loss` on a matrix: half the sum of squared entries. -/
def l2lossM (A : List (List ℝ)) : ℝ := normSqM A / 2

/-- `tf.nn.l2_loss` on a vector: half the sum of squared entries. -/
def l2lossV (v : List ℝ) : ℝ := normSqV v / 2

/-- The `epsilon = 1e-12` guard of `tf.nn.l2_normalize`. -/
def epsNorm : ℝ := 1 / 10 ^ 12

/-- Inverse norm factor of `tf.nn.l2_normalize`:
`rsqrt (max (sum of squares) eps)`. -/
def invNorm (v : List ℝ) : ℝ := (Real.sqrt (max (normSqV v) epsNorm))⁻¹

/-- One row of `tf.nn.l2_normalize (·, 1)`. -/
def l2normRow (v : List ℝ) : List ℝ := v.map (fun x => x * invNorm v)

/-- `tf.nn.l2_normalize (·, 1)`: every row normalized to (near) unit norm. -/
def l2normalizeM (A : List (List ℝ)) : List (List ℝ) := A.map l2normRow

/-- `tf.nn.embedding_lookup`: gather rows of `table` at the given ids. -/
def embedLookup (table : List (List ℝ)) (ids : List ℕ) : List (List ℝ) :=
  ids.map (fun i => table.getD i [])

/-- `tf.nn.dropout x keep_prob` under an explicit boolean mask: a kept
entry is scaled by `1 / keep_prob`, a dropped entry becomes `0`. -/
def dropoutM (A : List (List ℝ)) (mask : List (List Bool)) : List (List ℝ) :=
  List.zipWith
    (fun row mrow => List.zipWith (fun x b => if b then x / keep_prob else 0) row mrow)
    A mask

/-- `tf.one_hot i T` as a vector of length `T` (all zeros when `T ≤ i`). -/
def oneHot (T : ℕ) (i : ℕ) : List ℝ :=
  (List.range T).map (fun j => if j = i then 1 else 0)

/-- `tf.reduce_sum (tf.one_hot idxs T) 1` for one row of top-k indices:
entry `j` counts the occurrences of `j` among `idxs`. -/
def predVec (T : ℕ) (idxs : List ℕ) : List ℝ :=
  (List.range T).map (fun j => (idxs.map (fun i => if j = i then (1 : ℝ) else 0)).sum)

/-- The index permutation produced by `tf.nn.top_k` on one row: indices
sorted by decreasing value, ties resolved toward the lower index. -/
def sortIdx (row : List ℝ) : List ℕ :=
  List.insertionSort
    (fun i j => row.getD j 0 < row.getD i 0 ∨ (row.getD i 0 = row.getD j 0 ∧ i ≤ j))
    (List.range row.length)

/-- `tf.nn.top_k(row, k).indices`: the first `k` indices in the sorted order. -/
def topkIdx (row : List ℝ) (k : ℕ) : List ℕ := (sortIdx row).take k

/-! ### The computation graph state

All placeholders, trainable variables and (sampled) dropout masks that the
notebook's graph reads.  A `sess.run` with a `feed_dict` corresponds to
evaluating the functions below at one value of `G`. -/

structure G where
  tag_total : ℕ
  int_embeddings : List (List ℝ)
  adv_embeddings : List (List ℝ)
  encoder_w : List (List ℝ)
  decoder_w : List (List ℝ)
  encoder_b : List ℝ
  decoder_b : List ℝ
  pos_h : List ℕ
  pos_t : List ℕ
  pos_r : List (List ℝ)
  pos_br : List (List ℝ)
  neg_h : List ℕ
  neg_t : List ℕ
  neg_r : List (List ℝ)
  neg_br : List (List ℝ)
  mask_pos : List (List Bool)
  mask_neg : List (List Bool)

/-! ### Embedding lookup (notebook cell 7) -/

/-- `lookup` from the notebook: the four id batches looked up in the two
embedding tables and L2-normalized along axis 1. -/
def lookup (pos_head pos_tail neg_head neg_tail : List ℕ)
    (intE advE : List (List ℝ)) :
    List (List ℝ) × List (List ℝ) × List (List ℝ) × List (List ℝ) :=
  (l2normalizeM (embedLookup intE pos_head),
   l2normalizeM (embedLookup advE pos_tail),
   l2normalizeM (embedLookup intE neg_head),
   l2normalizeM (embedLookup advE neg_tail))

/-- `pos_h_e`: normalized head embeddings of the positive batch. -/
def pos_h_e (g : G) : List (List ℝ) :=
  (lookup g.pos_h g.pos_t g.neg_h g.neg_t g.int_embeddings g.adv_embeddings).1

/-- `pos_t_e`: normalized tail embeddings of the positive batch. -/
def pos_t_e (g : G) : List (List ℝ) :=
  (lookup g.pos_h g.pos_t g.neg_h g.neg_t g.int_embeddings g.adv_embeddings).2.1

/-- `neg_h_e`: normalized head embeddings of the negative batch. -/
def neg_h_e (g : G) : List (List ℝ) :=
  (lookup g.pos_h g.pos_t g.neg_h g.neg_t g.int_embeddings g.adv_embeddings).2.2.1

/-- `neg_t_e`: normalized tail embeddings of the negative batch. -/
def neg_t_e (g : G) : List (List ℝ) :=
  (lookup g.pos_h g.pos_t g.neg_h g.neg_t g.int_embeddings g.adv_embeddings).2.2.2

/-! ### Autoencoder (notebook cell 9) -/

/-- `autoencoder(W, B, x)` from the notebook: hidden representation
`dropout (tanh (x · W_enc + b_enc))` and reconstruction
`sigmoid (rep · W_dec + b_dec)`. -/
def autoencoder (encW decW : List (List ℝ)) (encB decB : List ℝ)
    (x : List (List ℝ)) (mask : List (List Bool)) :
    List (List ℝ) × List (List ℝ) :=
  let rep := dropoutM (tanhM (addBias (matmul x encW) encB)) mask
  (rep, sigmoidM (addBias (matmul rep decW) decB))

/-- `pos_r_rep`: hidden representation of the positive label vectors. -/
def pos_r_rep (g : G) : List (List ℝ) :=
  (autoencoder g.encoder_w g.decoder_w g.encoder_b g.decoder_b g.pos_r g.mask_pos).1

/-- `pos_r_dec`: reconstruction of the positive label vectors. -/
def pos_r_dec (g : G) : List (List ℝ) :=
  (autoencoder g.encoder_w g.decoder_w g.encoder_b g.decoder_b g.pos_r g.mask_pos).2

/-- `neg_r_rep`: hidden representation of the negative label vectors. -/
def neg_r_rep (g : G) : List (List ℝ) :=
  (autoencoder g.encoder_w g.decoder_w g.encoder_b g.decoder_b g.neg_r g.mask_neg).1

/-- `neg_r_dec`: reconstruction of the negative label vectors. -/
def neg_r_dec (g : G) : List (List ℝ) :=
  (autoencoder g.encoder_w g.decoder_w g.encoder_b g.decoder_b g.neg_r g.mask_neg).2

/-! ### Losses (notebook cells 11, 13, 15) -/

/-- `relation_ae_l2_loss`: the `tf.nn.l2_loss` regularizer over the four
autoencoder parameter tensors. -/
def relation_ae_l2_loss (g : G) : ℝ :=
  l2lossM g.encoder_w + l2lossM g.decoder_w + l2lossV g.encoder_b + l2lossV g.decoder_b

/-- `relation_loss`: weighted L1 reconstruction loss on the positive plus
the negative label vectors. -/
def relation_loss (g : G) : ℝ :=
  reduceSumM (absM (hadamard (subM (pos_r_dec g) g.pos_r) g.pos_br)) +
    reduceSumM (absM (hadamard (subM (neg_r_dec g) g.neg_r) g.neg_br))

/-- `relation_pos_r_loss`: the warm-up objective, weighted L1
reconstruction loss on the positive label vectors plus the scaled
regularizer. -/
def relation_pos_r_loss (g : G) : ℝ :=
  reduceSumM (absM (hadamard (subM (pos_r_dec g) g.pos_r) g.pos_br)) +
    l2_lambda * relation_ae_l2_loss g

/-- `pos`: per-row L1 distance `Σ |pos_h_e + pos_r_rep - pos_t_e|`. -/
def posDist (g : G) : List ℝ :=
  rowSums (absM (subM (addM (pos_h_e g) (pos_r_rep g)) (pos_t_e g)))

/-- `neg`: per-row L1 distance `Σ |neg_h_e + neg_r_rep - neg_t_e|`. -/
def negDist (g : G) : List ℝ :=
  rowSums (absM (subM (addM (neg_h_e g) (neg_r_rep g)) (neg_t_e g)))

/-- `trans_loss = tf.reduce_sum (tf.maximum (pos - neg + gamma) 0)`. -/
def trans_loss (g : G) : ℝ :=
  (List.zipWith (fun p n => max (p - n + gamma) 0) (posDist g) (negDist g)).sum

/-- `loss`: the joint objective
`trans_loss + alpha * relation_loss + l2_lambda * relation_ae_l2_loss`. -/
def loss (g : G) : ℝ :=
  trans_loss g + alpha * relation_loss g + l2_lambda * relation_ae_l2_loss g

/-! ### Evaluation tensors (notebook cell 17) -/

/-- `relation_sum = tf.reduce_sum pos_r`: total mass of the fed label matrix. -/
def relation_sum (g : G) : ℝ := reduceSumM g.pos_r

/-- `pos_r_minus = pos_t_e - pos_h_e`. -/
def pos_r_minus (g : G) : List (List ℝ) := subM (pos_t_e g) (pos_h_e g)

/-- `pos_r_minus_dec = sigmoid (pos_r_minus · decoder_w + decoder_b)`:
the predicted label scores of the evaluator. -/
def pos_r_minus_dec (g : G) : List (List ℝ) :=
  sigmoidM (addBias (matmul (pos_r_minus g) g.decoder_w) g.decoder_b)

/-- `pred` for one cutoff `k`:
`tf.reduce_sum (tf.one_hot (tf.nn.top_k(pos_r_minus_dec, k).indices) tag_total) 1`. -/
def predMat (g : G) (k : ℕ) : List (List ℝ) :=
  (pos_r_minus_dec g).map (fun row => predVec g.tag_total (topkIdx row k))

/-- One entry of the `hits` list:
`tf.reduce_sum (tf.multiply pred pos_r)` for cutoff `k`. -/
def hitAt (g : G) (k : ℕ) : ℝ := reduceSumM (hadamard (predMat g k) g.pos_r)

/-- The `hits` list built by the loop `for k in hits_k`. -/
def hits (g : G) : List ℝ := hits_k.map (fun k => hitAt g k)

/-! ### Evaluation loop (notebook cell 19) -/

/-- One test batch delivered by `next_test_batch`: head ids, tail ids and
the multi-hot label matrix. -/
structure TestBatch where
  hIds : List ℕ
  tIds : List ℕ
  rMat : List (List ℝ)

/-- `test_total_batch = int (num_examples / eval_batch_size)`. -/
def testTotalBatch (numExamples : ℕ) : ℕ := numExamples / eval_batch_size

/-- Feeding a test batch into the graph: the feed_dict replaces
`pos_h`, `pos_t`, `pos_r` and leaves everything else as it is. -/
def feedTest (g : G) (b : TestBatch) : G :=
  G.mk g.tag_total g.int_embeddings g.adv_embeddings g.encoder_w g.decoder_w
    g.encoder_b g.decoder_b b.hIds b.tIds b.rMat g.pos_br g.neg_h g.neg_t
    g.neg_r g.neg_br g.mask_pos g.mask_neg

/-- One iteration of the evaluation loop:
`hits_ = map (+) (zip hits_ cur_hits)` and `all_count += cur_sum`. -/
def evalStep (g : G) (acc : List ℝ × ℝ) (b : TestBatch) : List ℝ × ℝ :=
  (List.zipWith (fun x y => x + y) acc.1 (hits (feedTest g b)),
   acc.2 + relation_sum (feedTest g b))

/-- The full evaluation loop starting from `hits_ = [0,0,0]`, `all_count = 0`. -/
def evalFold (g : G) (bs : List TestBatch) : List ℝ × ℝ :=
  bs.foldl (evalStep g) ([0, 0, 0], 0)

/-- `r = [hit / all_count for hit in hits_]`: the reported Hits@k values. -/
def reportedHits (g : G) (bs : List TestBatch) : List ℝ :=
  (evalFold g bs).1.map (fun x => x / (evalFold g bs).2)

/-! ### Dependency structure of the losses

`tf.train.AdamOptimizer(lr).minimize(loss)` computes gradients of `loss`
with respect to every trainable variable and applies an update to exactly
those variables that occur in the computation graph of `loss`; a variable
with no path into `loss` receives no gradient and is left untouched.  To
state which variables a loss reads, the loss tensors are transcribed a
second time as syntax trees whose leaves name the variables and
placeholders they are built from. -/

/-- The six trainable variables of the notebook. -/
inductive TVar
  | intEmb
  | advEmb
  | encW
  | decW
  | encB
  | decB
deriving DecidableEq

/-- The placeholders of the notebook used by the autoencoder losses. -/
inductive PHold
  | posR
  | posBr
  | negR
  | negBr
deriving DecidableEq

/-- Tensor expressions: the operations the notebook's losses are built from. -/
inductive TExpr
  | var : TVar → TExpr
  | ph : PHold → TExpr
  | matmulE : TExpr → TExpr → TExpr
  | addE : TExpr → TExpr → TExpr
  | subE : TExpr → TExpr → TExpr
  | mulE : TExpr → TExpr → TExpr
  | absE : TExpr → TExpr
  | tanhE : TExpr → TExpr
  | sigmoidE : TExpr → TExpr
  | dropoutE : TExpr → TExpr
  | reduceSumE : TExpr → TExpr
  | l2lossE : TExpr → TExpr
  | smulE : ℚ → TExpr → TExpr

/-- The trainable variables occurring in a tensor expression. -/
def varsOf : TExpr → List TVar
  | TExpr.var v => [v]
  | TExpr.ph _ => []
  | TExpr.matmulE a b => varsOf a ++ varsOf b
  | TExpr.addE a b => varsOf a ++ varsOf b
  | TExpr.subE a b => varsOf a ++ varsOf b
  | TExpr.mulE a b => varsOf a ++ varsOf b
  | TExpr.absE a => varsOf a
  | TExpr.tanhE a => varsOf a
  | TExpr.sigmoidE a => varsOf a
  | TExpr.dropoutE a => varsOf a
  | TExpr.reduceSumE a => varsOf a
  | TExpr.l2lossE a => varsOf a
  | TExpr.smulE _ a => varsOf a

/-- `relation_ae_l2_loss` as a tensor expression. -/
def relation_ae_l2_lossE : TExpr :=
  TExpr.addE
    (TExpr.addE
      (TExpr.addE (TExpr.l2lossE (TExpr.var TVar.encW))
        (TExpr.l2lossE (TExpr.var TVar.decW)))
      (TExpr.l2lossE (TExpr.var TVar.encB)))
    (TExpr.l2lossE (TExpr.var TVar.decB))

/-- `pos_r_dec` as a tensor expression: the autoencoder applied to `pos_r`. -/
def pos_r_decE : TExpr :=
  TExpr.sigmoidE
    (TExpr.addE
      (TExpr.matmulE
        (TExpr.dropoutE
          (TExpr.tanhE
            (TExpr.addE (TExpr.matmulE (TExpr.ph PHold.posR) (TExpr.var TVar.encW))
              (TExpr.var TVar.encB))))
        (TExpr.var TVar.decW))
      (TExpr.var TVar.decB))

/-- `relation_pos_r_loss` (the warm-up objective) as a tensor expression. -/
def relation_pos_r_lossE : TExpr :=
  TExpr.addE
    (TExpr.reduceSumE
      (TExpr.absE
        (TExpr.mulE (TExpr.subE pos_r_decE (TExpr.ph PHold.posR))
          (TExpr.ph PHold.posBr))))
    (TExpr.smulE (1 / 1000) relation_ae_l2_lossE)

/-- One `minimize` step: each trainable variable occurring in `lossE` is
replaced by the optimizer's update of it (`updM` for matrix variables,
`updV` for bias vectors); every other variable, and every placeholder and
mask, is left unchanged. -/
def applyMinimizeStep (lossE : TExpr)
    (updM : TVar → List (List ℝ) → List (List ℝ))
    (updV : TVar → List ℝ → List ℝ) (g : G) : G :=
  G.mk g.tag_total
    (if TVar.intEmb ∈ varsOf lossE then updM TVar.intEmb g.int_embeddings
      else g.int_embeddings)
    (if TVar.advEmb ∈ varsOf lossE then updM TVar.advEmb g.adv_embeddings
      else g.adv_embeddings)
    (if TVar.encW ∈ varsOf lossE then updM TVar.encW g.encoder_w else g.encoder_w)
    (if TVar.decW ∈ varsOf lossE then updM TVar.decW g.decoder_w else g.decoder_w)
    (if TVar.encB ∈ varsOf lossE then updV TVar.encB g.encoder_b else g.encoder_b)
    (if TVar.decB ∈ varsOf lossE then updV TVar.decB g.decoder_b else g.decoder_b)
    g.pos_h g.pos_t g.pos_r g.pos_br g.neg_h g.neg_t g.neg_r g.neg_br
    g.mask_pos g.mask_neg

/-! ### Spec-side formulas

Definitions transcribed from the wording of the specification, to be
compared with the graph functions above. -/

/-- Spec formula: `L_ae = Σ |(ŝ - s) ⊙ w|`, the weighted reconstruction
loss on a reconstruction `ŝ`, label matrix `s` and weight matrix `w`. -/
def specLae (shat s w : List (List ℝ)) : ℝ :=
  reduceSumM (absM (hadamard (subM shat s) w))

/-- Spec formula: per-row distance `d(u, v, l) = Σ |u + l - v'|`. -/
def specDistRows (u l vp : List (List ℝ)) : List ℝ :=
  rowSums (absM (subM (addM u l) vp))

/-- Spec formula: `L_trans = Σ max(0, γ + d(pos) - d(neg))` over the batch. -/
def specTransLoss (g : G) : ℝ :=
  (List.zipWith (fun dp dn => max 0 (gamma + dp - dn))
    (specDistRows (pos_h_e g) (pos_r_rep g) (pos_t_e g))
    (specDistRows (neg_h_e g) (neg_r_rep g) (neg_t_e g))).sum

/-- Spec formula: predicted label scores `ŝ = sigmoid ((v' - u) · W_dec + b_dec)`
with `u` the normalized head and `v'` the normalized tail embeddings. -/
def specScores (g : G) : List (List ℝ) :=
  sigmoidM (addBias (matmul (subM (pos_t_e g) (pos_h_e g)) g.decoder_w) g.decoder_b)

/-- Spec formula: per-cutoff hit counts summed over all test batches. -/
def batchHitTotals (g : G) (bs : List TestBatch) : List ℝ :=
  bs.foldr (fun b acc => List.zipWith (fun x y => x + y) (hits (feedTest g b)) acc)
    [0, 0, 0]

/-- Spec formula: the total of `relation_sum` over all test batches. -/
def batchCountTotal (g : G) (bs : List TestBatch) : ℝ :=
  (bs.map (fun b => relation_sum (feedTest g b))).sum

/-! ### Concrete graph states used as test inputs -/

/-- A state whose encoder weight is `[[1]]` and whose other parameter
tensors are empty. -/
def gC1 : G := ⟨0, [], [], [[1]], [], [], [], [], [], [], [], [], [], [], [], [], []⟩

/-- A small evaluation state with two labels and one test edge whose
label vector is `[1, 0]`. -/
def gC3 : G :=
  ⟨2, [[1, 0]], [[0, 1]], [], [[1, 2], [3, 4]], [], [0, 0], [0], [0], [[1, 0]],
   [], [], [], [], [], [], []⟩

/-- A small state for the warm-up objective. -/
def gC7a : G :=
  ⟨1, [[1]], [[2]], [[1]], [[1]], [0], [0], [0], [0], [[1]], [[50]], [0], [0],
   [[1]], [[1]], [[true]], [[true]]⟩

/-- Same positive inputs and autoencoder parameters as `gC7a`, but other
embeddings, negative inputs and negative dropout mask. -/
def gC7b : G :=
  ⟨1, [[9]], [[7]], [[1]], [[1]], [0], [0], [0], [0], [[1]], [[50]], [0], [0],
   [[0]], [[1]], [[true]], [[false]]⟩

/-- A small evaluation state with dropout masks keeping every entry. -/
def gC8a : G :=
  ⟨1, [[1]], [[2]], [[3]], [[4]], [5], [6], [0], [0], [[1]], [[1]], [0], [0],
   [[0]], [[1]], [[true]], [[true]]⟩

/-- The same state as `gC8a` except that both dropout masks drop every
entry. -/
def gC8b : G :=
  ⟨1, [[1]], [[2]], [[3]], [[4]], [5], [6], [0], [0], [[1]], [[1]], [0], [0],
   [[0]], [[1]], [[false]], [[false]]⟩

/-- An empty graph state. -/
def gC9 : G := ⟨0, [], [], [], [], [], [], [], [], [], [], [], [], [], [], [], []⟩

/-- A test batch whose label matrix contains no positive label. -/
def bC9 : TestBatch := ⟨[0], [0], [[0, 0]]⟩

/-! ### Helper lemmas -/

theorem zipWith_ext {α β γ : Type} (f f' : α → β → γ)
    (h : ∀ a b, f a b = f' a b) :
    ∀ (l1 : List α) (l2 : List β), List.zipWith f l1 l2 = List.zipWith f' l1 l2
  | [], _ => by simp
  | _ :: _, [] => by simp
  | a :: l1, b :: l2 => by
    simp only [List.zipWith_cons_cons, h, zipWith_ext f f' h l1 l2]

theorem normSq_map_mul (v : List ℝ) (c : ℝ) :
    normSqV (v.map (fun x => x * c)) = normSqV v * (c * c) := by
  induction v with
  | nil => simp [normSqV]
  | cons x xs ih =>
    simp only [normSqV, List.map_cons, List.map_map, List.sum_cons] at ih ⊢
    rw [ih]
    ring

/-- A row whose squared norm reaches the `epsilon` guard is normalized to
exactly unit squared norm by `tf.nn.l2_normalize`. -/
theorem l2normRow_unit (v : List ℝ) (h : epsNorm ≤ normSqV v) :
    normSqV (l2normRow v) = 1 := by
  have hpos : (0 : ℝ) < normSqV v :=
    lt_of_lt_of_le (by norm_num [epsNorm]) h
  have hsq : Real.sqrt (normSqV v) * Real.sqrt (normSqV v) = normSqV v :=
    Real.mul_self_sqrt hpos.le
  simp only [l2normRow]
  rw [normSq_map_mul]
  simp only [invNorm, max_eq_left h]
  rw [← mul_inv, hsq]
  exact mul_inv_cancel₀ hpos.ne'

/-- All rows produced by one lookup-and-normalize are unit rows, provided
the ids are in range and every table row meets the `epsilon` guard. -/
theorem lookup_rows_unit (table : List (List ℝ)) (ids : List ℕ)
    (hid : ∀ i ∈ ids, i < table.length)
    (htab : ∀ row ∈ table, epsNorm ≤ normSqV row) :
    ∀ r ∈ l2normalizeM (embedLookup table ids), normSqV r = 1 := by
  intro r hr
  simp only [l2normalizeM, embedLookup, List.map_map, List.mem_map,
    Function.comp] at hr
  obtain ⟨i, hi, rfl⟩ := hr
  have hlt := hid i hi
  have hget : table.getD i [] = table[i] := by
    rw [List.getD_eq_getElem?_getD, List.getElem?_eq_getElem hlt]
    rfl
  exact l2normRow_unit _ (htab _ (hget ▸ List.getElem_mem hlt))

theorem pos_h_e_eq (g : G) :
    pos_h_e g = l2normalizeM (embedLookup g.int_embeddings g.pos_h) := rfl

theorem pos_t_e_eq (g : G) :
    pos_t_e g = l2normalizeM (embedLookup g.adv_embeddings g.pos_t) := rfl

theorem neg_h_e_eq (g : G) :
    neg_h_e g = l2normalizeM (embedLookup g.int_embeddings g.neg_h) := rfl

theorem neg_t_e_eq (g : G) :
    neg_t_e g = l2normalizeM (embedLookup g.adv_embeddings g.neg_t) := rfl

/-! ### Claims -/

/-- Claim C1, amended: the regularizer used in both the warm-up loss and
the joint loss equals HALF the sum `‖W_enc‖² + ‖W_dec‖² + ‖b_enc‖² +
‖b_dec‖²` of the squared Frobenius/L2 norms of the four autoencoder
parameter tensors, because `tf.nn.l2_loss t = sum(t²) / 2`. -/
theorem claim_C1_regularizer (g : G) :
    relation_ae_l2_loss g =
      (normSqM g.encoder_w + normSqM g.decoder_w +
        normSqV g.encoder_b + normSqV g.decoder_b) / 2 := by
  simp only [relation_ae_l2_loss, l2lossM, l2lossV]
  ring

/-- Claim C1, counterexample to the claim as stated: with encoder weight
`[[1]]` and the other parameter tensors empty, the regularizer is `1/2`
while the sum of the squared norms is `1`. -/
theorem claim_C1_cex :
    relation_ae_l2_loss gC1 ≠
      normSqM gC1.encoder_w + normSqM gC1.decoder_w +
        normSqV gC1.encoder_b + normSqV gC1.decoder_b := by
  simp [gC1, relation_ae_l2_loss, l2lossM, l2lossV, normSqM, normSqV]

/-- Claim C2, amended: every embedding vector returned by `lookup` has
unit L2 norm along the feature axis, provided the looked-up ids are in
range and every table row has squared norm at least the `epsilon = 1e-12`
guard of `tf.nn.l2_normalize` (in particular, nonzero rows in practice). -/
theorem claim_C2_unit_norm (pos_head pos_tail neg_head neg_tail : List ℕ)
    (intE advE : List (List ℝ))
    (hPH : ∀ i ∈ pos_head, i < intE.length)
    (hPT : ∀ i ∈ pos_tail, i < advE.length)
    (hNH : ∀ i ∈ neg_head, i < intE.length)
    (hNT : ∀ i ∈ neg_tail, i < advE.length)
    (hInt : ∀ row ∈ intE, epsNorm ≤ normSqV row)
    (hAdv : ∀ row ∈ advE, epsNorm ≤ normSqV row) :
    (∀ r ∈ (lookup pos_head pos_tail neg_head neg_tail intE advE).1,
      normSqV r = 1) ∧
    (∀ r ∈ (lookup pos_head pos_tail neg_head neg_tail intE advE).2.1,
      normSqV r = 1) ∧
    (∀ r ∈ (lookup pos_head pos_tail neg_head neg_tail intE advE).2.2.1,
      normSqV r = 1) ∧
    (∀ r ∈ (lookup pos_head pos_tail neg_head neg_tail intE advE).2.2.2,
      normSqV r = 1) :=
  ⟨lookup_rows_unit intE pos_head hPH hInt,
   lookup_rows_unit advE pos_tail hPT hAdv,
   lookup_rows_unit intE neg_head hNH hInt,
   lookup_rows_unit advE neg_tail hNT hAdv⟩

/-- Claim C2, witness: the table row `[3, 4]` is mapped to a unit-norm
vector by the lookup normalization. -/
theorem claim_C2_witness : normSqV (l2normRow [(3 : ℝ), 4]) = 1 :=
  (claim_C2_unit_norm [0] [0] [0] [0] [[3, 4]] [[3, 4]]
      (by simp) (by simp) (by simp) (by simp)
      (by intro row hrow
          simp only [List.mem_singleton] at hrow
          subst hrow
          norm_num [normSqV, epsNorm])
      (by intro row hrow
          simp only [List.mem_singleton] at hrow
          subst hrow
          norm_num [normSqV, epsNorm])).1
    (l2normRow [(3 : ℝ), 4])
    (by simp [lookup, l2normalizeM, embedLookup])

/-- Claim C2, counterexample to the claim as stated: looking up the
all-zero table row yields the zero vector, whose norm is `0`, not `1`. -/
theorem claim_C2_cex :
    normSqV (l2normRow [(0 : ℝ)]) ≠ 1 ∧
      (lookup [0] [0] [0] [0] [[(0 : ℝ)]] [[(0 : ℝ)]]).1 =
        [l2normRow [(0 : ℝ)]] := by
  constructor
  · simp [l2normRow, normSqV]
  · simp [lookup, l2normalizeM, embedLookup]

/-- Claim C5: the joint-phase training loss equals
`L_trans + alpha * (L_ae(pos) + L_ae(neg)) + l2_lambda * L_reg`, where
`L_ae` is the weighted reconstruction loss `Σ |(ŝ - s) ⊙ w|` on the
positive and the negative label vectors with their weight vectors, with
`alpha = 0.5` and `l2_lambda = 0.001`. -/
theorem claim_C5_joint_loss (g : G) :
    loss g =
      trans_loss g +
        alpha * (specLae (pos_r_dec g) g.pos_r g.pos_br +
          specLae (neg_r_dec g) g.neg_r g.neg_br) +
        l2_lambda * relation_ae_l2_loss g ∧
      alpha = 1 / 2 ∧ l2_lambda = 1 / 1000 :=
  ⟨rfl, rfl, rfl⟩

/-- Claim C6: the translation loss equals
`Σ max(0, γ + d(pos) - d(neg))` over the batch rows with margin
`γ = 1`, where `d(u, v, l) = Σ |u + l - v'|` is the L1 distance between
the normalized head embedding plus the autoencoder's hidden
representation of the labels and the normalized tail embedding. -/
theorem claim_C6_translation_loss (g : G) :
    trans_loss g = specTransLoss g ∧ gamma = 1 := by
  refine ⟨?_, rfl⟩
  simp only [trans_loss, specTransLoss, posDist, negDist, specDistRows]
  congr 1
  apply zipWith_ext
  intro p n
  rw [max_comm]
  congr 1
  ring

/-- Claim C7: the warm-up objective equals exactly
`L_ae(pos) + l2_lambda * L_reg`; it reads only the positive label
vectors, their weights, the positive dropout mask and the four
autoencoder parameters, so neither the negative label vectors nor the
translation loss (nor the embeddings) influence it. -/
theorem claim_C7_warmup_objective (g1 g2 : G)
    (hR : g1.pos_r = g2.pos_r) (hBr : g1.pos_br = g2.pos_br)
    (hM : g1.mask_pos = g2.mask_pos)
    (hEW : g1.encoder_w = g2.encoder_w) (hDW : g1.decoder_w = g2.decoder_w)
    (hEB : g1.encoder_b = g2.encoder_b) (hDB : g1.decoder_b = g2.decoder_b) :
    relation_pos_r_loss g1 =
        specLae (pos_r_dec g1) g1.pos_r g1.pos_br +
          l2_lambda * relation_ae_l2_loss g1 ∧
      relation_pos_r_loss g1 = relation_pos_r_loss g2 := by
  refine ⟨rfl, ?_⟩
  simp only [relation_pos_r_loss, relation_ae_l2_loss, pos_r_dec]
  rw [hR, hBr, hM, hEW, hDW, hEB, hDB]

/-- Claim C7, witness: two graph states sharing the positive inputs and
the autoencoder parameters but different embeddings and negative inputs
give the same warm-up objective. -/
theorem claim_C7_witness :
    relation_pos_r_loss gC7a =
        specLae (pos_r_dec gC7a) gC7a.pos_r gC7a.pos_br +
          l2_lambda * relation_ae_l2_loss gC7a ∧
      relation_pos_r_loss gC7a = relation_pos_r_loss gC7b :=
  claim_C7_warmup_objective gC7a gC7b rfl rfl rfl rfl rfl rfl rfl

/-- Claim C8: for a fixed parameter state and a fixed test batch, the
evaluation outputs (`hits` and `relation_sum`) are independent of the
dropout masks, because the evaluation path does not involve the encoder
or dropout. -/
theorem claim_C8_dropout_noninterference (g1 g2 : G)
    (hTag : g1.tag_total = g2.tag_total)
    (hInt : g1.int_embeddings = g2.int_embeddings)
    (hAdv : g1.adv_embeddings = g2.adv_embeddings)
    (hEW : g1.encoder_w = g2.encoder_w)
    (hDW : g1.decoder_w = g2.decoder_w)
    (hEB : g1.encoder_b = g2.encoder_b)
    (hDB : g1.decoder_b = g2.decoder_b)
    (hH : g1.pos_h = g2.pos_h) (hT : g1.pos_t = g2.pos_t)
    (hR : g1.pos_r = g2.pos_r) :
    hits g1 = hits g2 ∧ relation_sum g1 = relation_sum g2 := by
  constructor
  · simp only [hits, hitAt, predMat, pos_r_minus_dec, pos_r_minus,
      pos_h_e_eq, pos_t_e_eq]
    rw [hTag, hInt, hAdv, hDW, hDB, hH, hT, hR]
  · simp only [relation_sum]
    rw [hR]

/-- Claim C8, witness: two concrete states differing only in their
dropout masks produce identical evaluation outputs. -/
theorem claim_C8_witness :
    hits gC8a = hits gC8b ∧ relation_sum gC8a = relation_sum gC8b :=
  claim_C8_dropout_noninterference gC8a gC8b rfl rfl rfl rfl rfl rfl rfl rfl
    rfl rfl

/-- Claim C9: the Hits@k division is unguarded.  A test set of 100
examples yields zero evaluation batches (`eval_batch_size = 2000`), the
reported values always divide by the aggregated `all_count` with no zero
check, the aggregate over zero batches is `0`, and a batch whose label
matrix has no positive label also contributes `0`. -/
theorem claim_C9_unguarded_division :
    testTotalBatch 100 = 0 ∧
      (∀ (g : G) (bs : List TestBatch),
        reportedHits g bs =
          (evalFold g bs).1.map (fun x => x / (evalFold g bs).2)) ∧
      (∀ g : G, (evalFold g []).2 = 0) ∧
      (evalFold gC9 [bC9]).2 = 0 := by
  refine ⟨by norm_num [testTotalBatch, eval_batch_size],
    fun g bs => rfl, fun g => rfl, ?_⟩
  simp [evalFold, evalStep, relation_sum, feedTest, reduceSumM, bC9, gC9]

/-- Claim C10: one warm-up optimizer step (`minimize` applied to
`relation_pos_r_loss`) leaves both vertex embedding tables unchanged,
because neither table occurs in the warm-up objective's computation
graph. -/
theorem claim_C10_warmup_frame :
    (∀ (updM : TVar → List (List ℝ) → List (List ℝ))
        (updV : TVar → List ℝ → List ℝ) (g : G),
      (applyMinimizeStep relation_pos_r_lossE updM updV g).int_embeddings =
          g.int_embeddings ∧
        (applyMinimizeStep relation_pos_r_lossE updM updV g).adv_embeddings =
          g.adv_embeddings) ∧
      TVar.intEmb ∉ varsOf relation_pos_r_lossE ∧
      TVar.advEmb ∉ varsOf relation_pos_r_lossE := by
  have h1 : TVar.intEmb ∉ varsOf relation_pos_r_lossE := by decide
  have h2 : TVar.advEmb ∉ varsOf relation_pos_r_lossE := by decide
  refine ⟨fun updM updV g => ⟨?_, ?_⟩, h1, h2⟩
  · simp only [applyMinimizeStep]
    rw [if_neg h1]
  · simp only [applyMinimizeStep]
    rw [if_neg h2]

/-! ### Lemmas for the evaluation loop (claim C4) -/

theorem zipWith_add_assoc :
    ∀ l1 l2 l3 : List ℝ,
      List.zipWith (fun x y => x + y) (List.zipWith (fun x y => x + y) l1 l2) l3 =
        List.zipWith (fun x y => x + y) l1 (List.zipWith (fun x y => x + y) l2 l3)
  | [], _, _ => by simp
  | _ :: _, [], _ => by simp
  | _ :: _, _ :: _, [] => by simp
  | a :: l1, b :: l2, c :: l3 => by
    simp only [List.zipWith_cons_cons, zipWith_add_assoc l1 l2 l3, add_assoc]

theorem hits_length (g : G) : (hits g).length = 3 := rfl

theorem batchHitTotals_length (g : G) (bs : List TestBatch) :
    (batchHitTotals g bs).length = 3 := by
  induction bs with
  | nil => rfl
  | cons b bs ih =>
    simp only [batchHitTotals, List.foldr_cons] at ih ⊢
    rw [List.length_zipWith, ih, hits_length]
    exact min_self 3

theorem zipWith_add_zeros_left (l : List ℝ) (h : l.length = 3) :
    List.zipWith (fun x y => x + y) [0, 0, 0] l = l := by
  obtain ⟨a, b, c, rfl⟩ := List.length_eq_three.mp h
  simp

theorem zipWith_add_zeros_right (l : List ℝ) (h : l.length = 3) :
    List.zipWith (fun x y => x + y) l [0, 0, 0] = l := by
  obtain ⟨a, b, c, rfl⟩ := List.length_eq_three.mp h
  simp

theorem evalFold_from (g : G) :
    ∀ (bs : List TestBatch) (a : List ℝ × ℝ), a.1.length = 3 →
      bs.foldl (evalStep g) a =
        (List.zipWith (fun x y => x + y) a.1 (batchHitTotals g bs),
         a.2 + batchCountTotal g bs)
  | [], a, ha => by
    simp only [List.foldl_nil, batchHitTotals, List.foldr_nil, batchCountTotal,
      List.map_nil, List.sum_nil, add_zero, zipWith_add_zeros_right a.1 ha]
  | b :: bs, a, ha => by
    rw [List.foldl_cons,
      evalFold_from g bs (evalStep g a b)
        (by simp [evalStep, List.length_zipWith, ha, hits_length])]
    simp only [evalStep, batchHitTotals, batchCountTotal, List.foldr_cons,
      List.map_cons, List.sum_cons]
    rw [zipWith_add_assoc, add_assoc]

/-- Claim C4: the evaluator's predicted score matrix equals
`sigmoid ((v' - u) · W_dec + b_dec)` for the normalized head and tail
embeddings, and the reported Hits@k values equal the per-cutoff hit
counts summed over all test batches divided by the total `relation_sum`
(the count of true positive labels) over those batches. -/
theorem claim_C4_evaluation (g : G) (bs : List TestBatch) :
    pos_r_minus_dec g = specScores g ∧
      evalFold g bs = (batchHitTotals g bs, batchCountTotal g bs) ∧
      reportedHits g bs =
        (batchHitTotals g bs).map (fun x => x / batchCountTotal g bs) := by
  have hfold : evalFold g bs = (batchHitTotals g bs, batchCountTotal g bs) := by
    rw [evalFold, evalFold_from g bs ([0, 0, 0], 0) rfl,
      zipWith_add_zeros_left _ (batchHitTotals_length g bs)]
    rw [zero_add]
  refine ⟨rfl, hfold, ?_⟩
  simp only [reportedHits, hfold]

/-! ### Lemmas for the top-k hit counts (claim C3) -/

theorem dotL_map_zero {α : Type} :
    ∀ (l : List α) (lr : List ℝ), dotL (l.map (fun _ => (0 : ℝ))) lr = 0
  | [], _ => by simp [dotL]
  | _ :: _, [] => by simp [dotL]
  | a :: l, x :: lr => by
    have h : dotL ((a :: l).map fun _ => (0 : ℝ)) (x :: lr) =
        0 * x + dotL (l.map fun _ => (0 : ℝ)) lr := by
      simp [dotL]
    rw [h, dotL_map_zero l lr]
    ring

theorem dotL_add_left :
    ∀ a b lr : List ℝ, a.length = b.length →
      dotL (List.zipWith (fun x y => x + y) a b) lr = dotL a lr + dotL b lr
  | [], [], lr, _ => by simp [dotL]
  | [], _ :: _, _, h => by simp at h
  | _ :: _, [], _, h => by simp at h
  | x :: a, y :: b, [], _ => by simp [dotL]
  | x :: a, y :: b, z :: lr, h => by
    have hl : a.length = b.length := by simpa using h
    have h0 : dotL (List.zipWith (fun x y => x + y) (x :: a) (y :: b)) (z :: lr) =
        (x + y) * z + dotL (List.zipWith (fun x y => x + y) a b) lr := by
      simp [dotL]
    have h1 : dotL (x :: a) (z :: lr) = x * z + dotL a lr := by simp [dotL]
    have h2 : dotL (y :: b) (z :: lr) = y * z + dotL b lr := by simp [dotL]
    rw [h0, dotL_add_left a b lr hl, h1, h2]
    ring

theorem zipWith_map_same {α : Type} (f f' : α → ℝ) :
    ∀ l : List α,
      List.zipWith (fun x y => x + y) (l.map f) (l.map f') =
        l.map (fun a => f a + f' a)
  | [] => by simp
  | a :: l => by simp [zipWith_map_same f f' l]

theorem predVec_nil (T : ℕ) :
    predVec T [] = (List.range T).map (fun _ => (0 : ℝ)) := by
  simp [predVec]

theorem predVec_cons (T i : ℕ) (is : List ℕ) :
    predVec T (i :: is) =
      List.zipWith (fun x y => x + y) (oneHot T i) (predVec T is) := by
  simp only [predVec, oneHot, List.map_cons, List.sum_cons]
  rw [zipWith_map_same]

theorem dotL_replicate_zero :
    ∀ (n : ℕ) (lr : List ℝ), dotL (List.replicate n 0) lr = 0
  | 0, _ => by simp [dotL]
  | _ + 1, [] => by simp [dotL]
  | n + 1, x :: lr => by
    have h : dotL (List.replicate (n + 1) 0) (x :: lr) =
        0 * x + dotL (List.replicate n 0) lr := by
      simp [dotL, List.replicate_succ]
    rw [h, dotL_replicate_zero n lr]
    ring

theorem dotL_oneHot :
    ∀ (lr : List ℝ) (i : ℕ),
      dotL (oneHot lr.length i) lr = if i < lr.length then lr.getD i 0 else 0
  | [], i => by simp [oneHot, dotL]
  | x :: xs, 0 => by
    have hsplit : oneHot (x :: xs).length 0 =
        1 :: List.replicate xs.length 0 := by
      have hzero : ((fun j => if j = 0 then (1 : ℝ) else 0) ∘ Nat.succ) =
          fun _ => (0 : ℝ) := by
        funext j
        simp
      simp [oneHot, List.range_succ_eq_map, List.map_map, hzero]
    have hdot : dotL (1 :: List.replicate xs.length 0) (x :: xs) =
        1 * x + dotL (List.replicate xs.length 0) xs := by
      simp [dotL]
    rw [hsplit, hdot, dotL_replicate_zero]
    simp
  | x :: xs, i + 1 => by
    have hsplit : oneHot (x :: xs).length (i + 1) = 0 :: oneHot xs.length i := by
      simp [oneHot, List.range_succ_eq_map, List.map_map, Function.comp]
    have hdot : dotL (0 :: oneHot xs.length i) (x :: xs) =
        0 * x + dotL (oneHot xs.length i) xs := by
      simp [dotL]
    rw [hsplit, hdot, dotL_oneHot xs i]
    simp [List.getD_cons_succ, Nat.succ_lt_succ_iff]

theorem dotL_predVec :
    ∀ (idxs : List ℕ) (lr : List ℝ),
      dotL (predVec lr.length idxs) lr =
        (idxs.map (fun i => if i < lr.length then lr.getD i 0 else 0)).sum
  | [], lr => by
    rw [predVec_nil, dotL_map_zero]
    simp
  | i :: idxs, lr => by
    rw [predVec_cons,
      dotL_add_left _ _ lr (by simp [oneHot, predVec]),
      dotL_oneHot, dotL_predVec idxs lr]
    simp

theorem hitAt_eq (g : G) (k : ℕ) :
    hitAt g k =
      (List.zipWith
        (fun srow lrow => dotL (predVec g.tag_total (topkIdx srow k)) lrow)
        (pos_r_minus_dec g) g.pos_r).sum := by
  simp only [hitAt, predMat, hadamard, reduceSumM]
  rw [List.zipWith_map_left, List.map_zipWith]
  rfl

theorem sum_map_take_mono {α : Type} (l : List α) (f : α → ℝ)
    (hf : ∀ x ∈ l, 0 ≤ f x) {k1 k2 : ℕ} (hk : k1 ≤ k2) :
    ((l.take k1).map f).sum ≤ ((l.take k2).map f).sum := by
  have h1 : List.take k1 (List.take k2 l) = List.take k1 l := by
    rw [List.take_take, min_eq_left hk]
  have h2 : 0 ≤ (((l.take k2).drop k1).map f).sum := by
    apply List.sum_nonneg
    intro y hy
    obtain ⟨x, hx, rfl⟩ := List.mem_map.mp hy
    exact hf x (List.take_subset k2 l (List.drop_subset _ _ hx))
  calc ((l.take k1).map f).sum
      ≤ ((l.take k1).map f).sum + (((l.take k2).drop k1).map f).sum := by
        linarith
    _ = ((List.take k1 (List.take k2 l) ++ List.drop k1 (List.take k2 l)).map
          f).sum := by
        rw [List.map_append, List.sum_append, h1]
    _ = ((l.take k2).map f).sum := by rw [List.take_append_drop]

theorem sum_zipWith_mono {α β : Type} (f f' : α → β → ℝ) :
    ∀ (A : List α) (B : List β),
      (∀ a ∈ A, ∀ b ∈ B, f a b ≤ f' a b) →
      (List.zipWith f A B).sum ≤ (List.zipWith f' A B).sum
  | [], _, _ => by simp
  | _ :: _, [], _ => by simp
  | a :: A, b :: B, h => by
    simp only [List.zipWith_cons_cons, List.sum_cons]
    have h1 := h a (by simp) b (by simp)
    have h2 := sum_zipWith_mono f f' A B
      (fun a' ha b' hb => h a' (by simp [ha]) b' (by simp [hb]))
    linarith

theorem getD_nonneg_of_01 (lr : List ℝ)
    (h01 : ∀ x ∈ lr, x = 0 ∨ x = 1) (i : ℕ) : 0 ≤ lr.getD i 0 := by
  by_cases hi : i < lr.length
  · have hget : lr.getD i 0 = lr[i] := by
      rw [List.getD_eq_getElem?_getD, List.getElem?_eq_getElem hi]
      rfl
    rcases h01 _ (hget ▸ List.getElem_mem hi) with h | h <;> rw [h] <;> norm_num
  · rw [List.getD_eq_getElem?_getD, List.getElem?_eq_none (le_of_not_lt hi)]
    rfl

theorem hitAt_mono (g : G) (k1 k2 : ℕ) (hk : k1 ≤ k2)
    (h01 : ∀ row ∈ g.pos_r, ∀ x ∈ row, x = 0 ∨ x = 1)
    (hlen : ∀ row ∈ g.pos_r, row.length = g.tag_total) :
    hitAt g k1 ≤ hitAt g k2 := by
  rw [hitAt_eq, hitAt_eq]
  apply sum_zipWith_mono
  intro srow _ lrow hlrow
  rw [← hlen lrow hlrow, topkIdx, topkIdx, dotL_predVec, dotL_predVec]
  apply sum_map_take_mono _ _ _ hk
  intro i _
  by_cases hi : i < lrow.length
  · simpa [hi] using getD_nonneg_of_01 lrow (h01 lrow hlrow) i
  · simp [hi]

theorem relation_sum_nonneg (g : G)
    (h01 : ∀ row ∈ g.pos_r, ∀ x ∈ row, x = 0 ∨ x = 1) :
    0 ≤ relation_sum g := by
  simp only [relation_sum, reduceSumM]
  apply List.sum_nonneg
  intro s hs
  obtain ⟨row, hrow, rfl⟩ := List.mem_map.mp hs
  apply List.sum_nonneg
  intro x hx
  rcases h01 row hrow x hx with h | h <;> rw [h] <;> norm_num

/-- Claim C3: for a fixed evaluation batch with a multi-hot (0/1) label
matrix of row length `tag_total`, the top-k hit counts are monotone,
`count@1 ≤ count@5 ≤ count@10`, and so are the counts divided by the
batch's total true-label count. -/
theorem claim_C3_hits_monotone (g : G)
    (h01 : ∀ row ∈ g.pos_r, ∀ x ∈ row, x = 0 ∨ x = 1)
    (hlen : ∀ row ∈ g.pos_r, row.length = g.tag_total) :
    hitAt g 1 ≤ hitAt g 5 ∧ hitAt g 5 ≤ hitAt g 10 ∧
      hitAt g 1 / relation_sum g ≤ hitAt g 5 / relation_sum g ∧
      hitAt g 5 / relation_sum g ≤ hitAt g 10 / relation_sum g := by
  have h15 := hitAt_mono g 1 5 (by norm_num) h01 hlen
  have h510 := hitAt_mono g 5 10 (by norm_num) h01 hlen
  have hnn := relation_sum_nonneg g h01
  have hdiv : ∀ a b : ℝ, a ≤ b →
      a / relation_sum g ≤ b / relation_sum g :=
    fun a b hab => div_le_div_of_nonneg_right hab hnn
  exact ⟨h15, h510, hdiv _ _ h15, hdiv _ _ h510⟩

/-- Claim C3, witness: a concrete two-label batch with label vector
`[1, 0]` satisfies the monotonicity chain. -/
theorem claim_C3_witness :
    hitAt gC3 1 ≤ hitAt gC3 5 ∧ hitAt gC3 5 ≤ hitAt gC3 10 ∧
      hitAt gC3 1 / relation_sum gC3 ≤ hitAt gC3 5 / relation_sum gC3 ∧
      hitAt gC3 5 / relation_sum gC3 ≤ hitAt gC3 10 / relation_sum gC3 :=
  claim_C3_hits_monotone gC3
    (by norm_num [gC3, List.forall_mem_cons])
    (by norm_num [gC3, List.forall_mem_cons])

end TransNet
